import Mathlib

/-!
Shallow embedding of the detprocess trigger-processing pipeline
(`detprocess/process/process_trigger.py` and the configuration loader in
`detprocess/utils/utils.py`), together with theorems checking the
natural-language specification of the streaming trigger pipeline.

Modelling conventions:
* Dataframes are abstracted by their row count (`Nat`); every dataframe in
  the loop carries the same number of columns `ncols`, so the memory
  estimate `shape[0] * shape[1] * 8` becomes `rows * ncols * 8`.
* A waveform block is represented by the list of built events it yields,
  each event being its number of merged triggers (`Block := List Nat`).
  `EventBuilder.get_event_df` lives in `eventbuilder.py`, which is not part
  of the sources here; following the spec it returns one dataframe row per
  trigger, i.e. the flattened triggers of all events of the block.
* `read_next_event` returns a success flag; the comment in `_process`
  ("end of file or raw data issue") documents that both end-of-series and a
  mid-run read failure surface as `False`.  A series is therefore a finite
  list of successfully read blocks plus a flag recording whether the stream
  ended with a read error; the processing loop never inspects that flag.
* Python exceptions (`ValueError`, `AttributeError` on `None`, `TypeError`
  on `len(None)`) are modelled with `Except PyError`.
* `memory_limit` is a `Rat` because the multi-core dispatch divides the
  byte count by the number of cores using true division.
-/

deriving instance DecidableEq for Except

/-- Python exceptions raised by the embedded code paths. -/
inductive PyError where
  /-- Python `TypeError` from `len(None)` in the ntriggers truncation. -/
  | typeErrorNone : PyError
  /-- Python `AttributeError` from `None.copy()` or `None.export_hdf5(...)`. -/
  | attributeErrorNone : PyError
  /-- Python `ValueError`: threshold_sigma missing in yaml configuration file. -/
  | valueErrorThreshold : PyError
  /-- Python `ValueError`: multi-core processing only allowed when processing all events. -/
  | valueErrorMulticore : PyError
  /-- Python `ValueError`: both coincident_window_msec and coincident_window_samples given. -/
  | valueErrorBothWindows : PyError
  /-- Python `ValueError`: parameter or channel defined multiple times. -/
  | valueErrorDuplicate : PyError
  /-- Python `ValueError`: trigger channel does not exist in data. -/
  | valueErrorChannelNotInData : PyError
  /-- Python `ValueError`: trigger channel used multiple times. -/
  | valueErrorDuplicateChannel : PyError
deriving DecidableEq

/-- Why the worker's `_process` loop returned early, distinguished in the
source by the two distinct return sites and their log messages
("Requested nb events reached" vs "Stopping processing due to memory limit").
`none` stop reason means the series list was exhausted normally. -/
inductive StopReason where
  | countReached : StopReason
  | memoryLimit : StopReason
deriving DecidableEq

/-- One waveform block, represented by the events built from it by
`EventBuilder.build_event`: each list entry is the number of per-channel
triggers merged into that event. -/
abbrev Block := List Nat

/-- Modelled from the spec: `EventBuilder.get_event_df` (in the missing
`eventbuilder.py`) returns the event dataframe with one row per trigger, so
its length is the total number of triggers over all events of the block. -/
def event_df_rows (events : Block) : Nat := events.sum

/-- One acquisition series: the blocks successfully read from it, plus a
flag recording whether the stream ended with a mid-run read failure instead
of a normal end of file.  `read_next_event` reports both identically
(returns `False`). -/
structure Series where
  blocks : List Block
  read_error : Bool
deriving DecidableEq

/-- Run configuration for one `_process` worker. -/
structure Cfg where
  /-- Caller-requested number of triggers, `-1` meaning unlimited. -/
  ntriggers : Int
  lgc_save : Bool
  lgc_output : Bool
  /-- Per-worker memory limit in bytes. -/
  memory_limit : Rat
  /-- Number of dataframe columns (`shape[1]`). -/
  ncols : Nat
  /-- Per trigger channel: its optional `threshold_sigma` value. -/
  trigger_config : List (String × Option Rat)
deriving DecidableEq

/-- Mutable state of one `_process` worker between loop iterations. -/
structure WorkerState where
  trigger_counter : Nat
  /-- Row count of the accumulated in-memory output (`output_df`), `none`
  when no dataframe has been created yet. -/
  output_df : Option Nat
  /-- Row count of the current series partition (`series_df`). -/
  series_df : Option Nat
  /-- Row counts of the hdf5 dumps exported so far. -/
  dumps : List Nat
deriving DecidableEq

/-- Result of one `_process` call: the returned dataframe, the exported
dumps, and how the loop ended. -/
structure RunResult where
  output_df : Option Nat
  dumps : List Nat
  stop_reason : Option StopReason
deriving DecidableEq

/-- Rows of the current series partition, counting `None` as zero rows. -/
def sdf0 (st : WorkerState) : Nat := st.series_df.getD 0

/-- Rows of the accumulated output dataframe, counting `None` as zero. -/
def out0 (st : WorkerState) : Nat := st.output_df.getD 0

/-- Memory estimate of a dataframe: `shape[0] * shape[1] * 8` bytes. -/
def mem_usage (rows ncols : Nat) : Nat := rows * ncols * 8

/-- Flag `ntriggers_limit_reached = (ntriggers > 0 and trigger_counter >= ntriggers)`. -/
def ntriggers_limit_reached (ntriggers : Int) (trigger_counter : Nat) : Bool :=
  ntriggers > 0 && (trigger_counter : Int) ≥ ntriggers

/-- Flag `memory_limit_reached`: the series partition or (with `lgc_output`)
the total output dataframe has an estimated size at or above the limit. -/
def memory_limit_reached (cfg : Cfg) (st : WorkerState) : Bool :=
  (match st.series_df with
   | some r => decide ((mem_usage r cfg.ncols : Rat) ≥ cfg.memory_limit)
   | none => false)
  ||
  (cfg.lgc_output &&
   match st.output_df with
   | some r => decide ((mem_usage r cfg.ncols : Rat) ≥ cfg.memory_limit)
   | none => false)

/-- Per-block loop over the trigger channels: each channel must have a
`threshold_sigma` entry, otherwise `ValueError` is raised (inside the
processing loop, for every block). -/
def threshold_check : List (String × Option Rat) → Except PyError Unit
  | [] => .ok ()
  | (_, some _) :: rest => threshold_check rest
  | (_, none) :: _ => .error .valueErrorThreshold

/-- Processing of the triggers of one block: `nb_triggers = len(event_df)`;
a block with no triggers is skipped (`continue`), otherwise the running
counter is incremented by `nb_triggers` and the rows are appended to the
series partition. -/
def process_block (b : Block) (st : WorkerState) : WorkerState :=
  let nb_triggers := event_df_rows b
  if nb_triggers = 0 then st
  else { st with
          trigger_counter := st.trigger_counter + nb_triggers,
          series_df := some (st.series_df.getD 0 + nb_triggers) }

/-- Outcome of the flush block inside the loop: either an early `return`
from `_process` or continuation with an updated state. -/
inductive FlushOut where
  | ret (res : RunResult)
  | cont (st : WorkerState)
deriving DecidableEq

/-- The flush block of `_process` (executed when `do_stop`, the trigger
count limit or the memory limit fires): optional truncation to the
requested trigger count, copy into `output_df` when `lgc_output`, hdf5
export when `lgc_save`, then the two early-return checks. -/
def stepFlush (cfg : Cfg) (st : WorkerState) (ntrigR memR : Bool) :
    Except PyError FlushOut :=
  let truncated : Except PyError WorkerState :=
    if ntrigR then
      match st.series_df with
      | none => .error .typeErrorNone
      | some r =>
        let nextra : Int := (st.trigger_counter : Int) - cfg.ntriggers
        let nkeep : Int := (r : Int) - nextra
        if 0 < nkeep then .ok { st with series_df := some nkeep.toNat }
        else .ok st
    else .ok st
  match truncated with
  | .error e => .error e
  | .ok st1 =>
    let copied : Except PyError WorkerState :=
      if cfg.lgc_output then
        match st1.series_df with
        | none => .error .attributeErrorNone
        | some r =>
          match st1.output_df with
          | none => .ok { st1 with output_df := some r }
          | some o => .ok { st1 with output_df := some (o + r) }
      else .ok st1
    match copied with
    | .error e => .error e
    | .ok st2 =>
      let saved : Except PyError WorkerState :=
        if cfg.lgc_save then
          match st2.series_df with
          | none => .error .attributeErrorNone
          | some r => .ok { st2 with dumps := st2.dumps ++ [r], series_df := none }
        else .ok st2
      match saved with
      | .error e => .error e
      | .ok st3 =>
        if ntrigR then
          .ok (.ret ⟨st3.output_df, st3.dumps, some .countReached⟩)
        else if cfg.lgc_output && memR then
          .ok (.ret ⟨st3.output_df, st3.dumps, some .memoryLimit⟩)
        else .ok (.cont st3)

/-- Outcome of the per-series block loop: an early `return` from
`_process`, or `break` at end of series with the state carried to the next
series. -/
inductive BlocksOut where
  | ret (res : RunResult)
  | brk (st : WorkerState)
deriving DecidableEq

/-- The `while (not do_stop)` loop of `_process` over one series.  Each
iteration computes the two limit flags from the current state, reads the
next block (`[]` means `read_next_event` returned `False`: end of file or
read failure), runs the flush block when a stop condition holds, then
processes the block's triggers. -/
def run_blocks (cfg : Cfg) : List Block → WorkerState → Except PyError BlocksOut
  | [], st =>
    let ntrigR := ntriggers_limit_reached cfg.ntriggers st.trigger_counter
    let memR := memory_limit_reached cfg st
    (match stepFlush cfg st ntrigR memR with
     | .error e => .error e
     | .ok (.ret res) => .ok (.ret res)
     | .ok (.cont st3) => .ok (.brk st3))
  | b :: rest, st =>
    let ntrigR := ntriggers_limit_reached cfg.ntriggers st.trigger_counter
    let memR := memory_limit_reached cfg st
    let flushed : Except PyError FlushOut :=
      if ntrigR || memR then stepFlush cfg st ntrigR memR else .ok (.cont st)
    match flushed with
    | .error e => .error e
    | .ok (.ret res) => .ok (.ret res)
    | .ok (.cont st1) =>
      match threshold_check cfg.trigger_config with
      | .error e => .error e
      | .ok _ => run_blocks cfg rest (process_block b st1)

/-- The `for series in series_list` loop of `_process`: the series
partition is re-initialised to `None` at the start of every series, and the
loop either propagates an early return or finishes with `return output_df`
(no stop reason). -/
def run_series_list (cfg : Cfg) : List Series → WorkerState → Except PyError RunResult
  | [], st => .ok ⟨st.output_df, st.dumps, none⟩
  | s :: rest, st =>
    match run_blocks cfg s.blocks { st with series_df := none } with
    | .error e => .error e
    | .ok (.ret res) => .ok res
    | .ok (.brk st3) => run_series_list cfg rest st3

/-- Function `TriggerProcessing._process` for one worker, starting from the empty
state (`trigger_counter = 0`, no dataframes, no dumps). -/
def process_run (cfg : Cfg) (series_list : List Series) : Except PyError RunResult :=
  run_series_list cfg series_list ⟨0, none, none, []⟩

/-- Total number of trigger rows produced by the blocks of one series. -/
def blocks_rows (blocks : List Block) : Nat := (blocks.map List.sum).sum

/-- Total number of trigger rows produced by a whole series list. -/
def total_rows (sl : List Series) : Nat := (sl.map (fun s => blocks_rows s.blocks)).sum

/-- Chunk sizes used by `numpy.array_split` on a length-`L` array split into
`n` sections: `L % n` chunks of size `L / n + 1` followed by chunks of size
`L / n`. -/
def split_sizes (L n : Nat) : List Nat :=
  List.replicate (L % n) (L / n + 1) ++ List.replicate (n - L % n) (L / n)

/-- Cut a list into consecutive chunks of the given sizes. -/
def split_by_sizes {α : Type} : List α → List Nat → List (List α)
  | _, [] => []
  | xs, s :: rest => xs.take s :: split_by_sizes (xs.drop s) rest

/-- Embedding of `numpy.array_split xs n`: `n` contiguous chunks of near-equal size. -/
def array_split {α : Type} (xs : List α) (n : Nat) : List (List α) :=
  split_by_sizes xs (split_sizes xs.length n)

/-- Function `TriggerProcessing._split_series`: split the series list with
`np.array_split` and drop the empty chunks. -/
def split_series {α : Type} (xs : List α) (n : Nat) : List (List α) :=
  (array_split xs n).filter (fun l => !l.isEmpty)

/-- The dispatch prelude of `TriggerProcessing.process`: reject a finite
trigger count combined with more than one core, clamp the core count to the
number of series, then either run single-core with the full series list and
the caller's memory limit, or split the series and divide the memory limit
by the core count. -/
def process_dispatch (series_list : List String) (ntriggers : Int) (ncores : Nat)
    (memory_limit : Rat) : Except PyError (List (List String) × Rat) :=
  if ncores > 1 ∧ ntriggers > -1 then .error .valueErrorMulticore
  else
    let nc := if ncores > series_list.length then series_list.length else ncores
    if nc = 1 then .ok ([series_list], memory_limit)
    else .ok (split_series series_list nc, memory_limit / (nc : Rat))

/-- Entry for one trigger-section channel in the yaml configuration, with
the fields `TriggerProcessing._read_config` and the processing loop read.
Other fields (pileup windows, template and psd tags, ...) do not influence
the claims checked here. -/
structure TriggerChanCfg where
  run : Bool
  threshold_sigma : Option Rat
deriving DecidableEq

/-- Channel validation loop of `TriggerProcessing._read_config`: each
trigger channel must exist in the raw data and may occur only once. -/
def check_channels : List String → List String → List String → Except PyError Unit
  | [], _, _ => .ok ()
  | c :: rest, avail, seen =>
    if c ∈ avail then
      if c ∈ seen then .error .valueErrorDuplicateChannel
      else check_channels rest avail (seen ++ [c])
    else .error .valueErrorChannelNotInData

/-- Function `TriggerProcessing._read_config`, restricted to trigger-section entries
whose keys are plain channel names (no `,`, `+`, `-`, `|` separators):
entries that are disabled (`run` absent or false) are skipped, the
remaining channels are checked for existence and duplication, and the
resulting trigger configuration is returned.  No check ever touches
`threshold_sigma`. -/
def read_config (trigger_data : List (String × TriggerChanCfg))
    (available_channels : List String) :
    Except PyError (List (String × TriggerChanCfg)) :=
  let trigger_config := trigger_data.filter (fun p => p.2.run)
  match check_channels (trigger_config.map Prod.fst) available_channels [] with
  | .error e => .error e
  | .ok _ => .ok trigger_config

/-- Construction of `parameter_list` in `utils.read_config` for one
configuration section, for keys without a comma: a key already seen raises
`ValueError`, otherwise it is appended. -/
def build_parameter_list : List String → List String → Except PyError (List String)
  | [], acc => .ok acc
  | c :: rest, acc =>
    if c ∈ acc then .error .valueErrorDuplicate
    else build_parameter_list rest (acc ++ [c])

/-- The coincidence-window validation of `utils.read_config`: after
building `parameter_list` from the section keys, finding both
`coincident_window_msec` and `coincident_window_samples` raises
`ValueError`. -/
def coincident_window_check (section_keys : List String) :
    Except PyError (List String) :=
  match build_parameter_list section_keys [] with
  | .error e => .error e
  | .ok pl =>
    if "coincident_window_msec" ∈ pl ∧ "coincident_window_samples" ∈ pl then
      .error .valueErrorBothWindows
    else .ok pl

/-- Loop-head invariant of the `while` loop of `_process`: the rows flushed
so far plus the rows of the current series partition account for the whole
trigger counter (separately for the hdf5 dumps and for `output_df`), and
the rows flushed so far stay strictly below the requested count `M`. -/
def Jmid (cfg : Cfg) (M : Nat) (st : WorkerState) : Prop :=
  (cfg.lgc_save = true → st.dumps.sum + sdf0 st = st.trigger_counter) ∧
  (cfg.lgc_output = true → out0 st + sdf0 st = st.trigger_counter) ∧
  st.trigger_counter < M + sdf0 st

/-- Series-boundary invariant of `_process`: between two series every
produced row has been flushed and the counter is below the requested
count. -/
def Jbound (cfg : Cfg) (M : Nat) (st : WorkerState) : Prop :=
  st.trigger_counter < M ∧
  (cfg.lgc_save = true → st.dumps.sum = st.trigger_counter) ∧
  (cfg.lgc_output = true → out0 st = st.trigger_counter)

/-! ## Helper lemmas -/

lemma build_parameter_list_ok (l : List String) :
    ∀ acc pl, build_parameter_list l acc = .ok pl → pl = acc ++ l := by
  induction l with
  | nil =>
    intro acc pl h
    simp [build_parameter_list] at h
    simp [h]
  | cons c rest ih =>
    intro acc pl h
    simp only [build_parameter_list] at h
    by_cases hc : c ∈ acc
    · simp [hc] at h
    · simp only [hc, if_neg, if_false] at h
      have := ih (acc ++ [c]) pl h
      simpa using this

lemma build_parameter_list_nodup (l : List String) :
    ∀ acc, (acc ++ l).Nodup → build_parameter_list l acc = .ok (acc ++ l) := by
  induction l with
  | nil => intro acc _; simp [build_parameter_list]
  | cons c rest ih =>
    intro acc hnd
    have hc : c ∉ acc := by
      intro hmem
      exact (List.disjoint_of_nodup_append hnd) hmem (by simp)
    have hnd2 : (acc ++ [c] ++ rest).Nodup := by
      simpa [List.append_assoc] using hnd
    simp only [build_parameter_list, if_neg hc]
    have := ih (acc ++ [c]) hnd2
    simpa [List.append_assoc] using this

lemma threshold_check_error_of_missing (tc : List (String × Option Rat)) :
    (∃ p ∈ tc, p.2 = none) → threshold_check tc = .error .valueErrorThreshold := by
  induction tc with
  | nil => rintro ⟨p, hp, _⟩; simp at hp
  | cons q rest ih =>
    rintro ⟨p, hp, hp2⟩
    rcases q with ⟨name, thr⟩
    cases thr with
    | none => simp [threshold_check]
    | some t =>
      simp only [threshold_check]
      apply ih
      rcases List.mem_cons.1 hp with h | h
      · exfalso
        rw [h] at hp2
        simp at hp2
      · exact ⟨p, h, hp2⟩

lemma ntriggers_limit_reached_zero (n : Int) : ntriggers_limit_reached n 0 = false := by
  unfold ntriggers_limit_reached
  simp

lemma ntriggers_limit_reached_true_iff (M : Nat) (c : Nat) (hMpos : 0 < M) :
    ntriggers_limit_reached (M : Int) c = true ↔ M ≤ c := by
  unfold ntriggers_limit_reached
  constructor
  · intro h
    simp at h
    exact_mod_cast h.2
  · intro h
    simp
    constructor
    · exact_mod_cast hMpos
    · exact_mod_cast h

lemma memory_limit_reached_none (cfg : Cfg) (st : WorkerState)
    (h1 : st.series_df = none) (h2 : st.output_df = none) :
    memory_limit_reached cfg st = false := by
  unfold memory_limit_reached
  rw [h1, h2]
  simp

lemma ntriggers_limit_reached_false_iff (M : Nat) (c : Nat) (hMpos : 0 < M) :
    ntriggers_limit_reached (M : Int) c = false ↔ c < M := by
  constructor
  · intro h
    by_contra hc
    have := (ntriggers_limit_reached_true_iff M c hMpos).2 (by omega)
    rw [h] at this
    exact Bool.false_ne_true this
  · intro h
    by_contra hne
    have hb : ntriggers_limit_reached (M : Int) c = true := by
      cases hbv : ntriggers_limit_reached (M : Int) c
      · exact absurd hbv hne
      · rfl
    have := (ntriggers_limit_reached_true_iff M c hMpos).1 hb
    omega

/-! ## Claim C2: event-count limit with several workers is rejected at dispatch -/

/-- C2: for every call to `TriggerProcessing.process` with more than one
worker (`ncores > 1`) and a finite event-count limit (`ntriggers > -1`),
the dispatch prelude raises `ValueError` before the series are split and
before any worker runs `_process`. -/
theorem C2_multicore_ntriggers_rejected
    (series_list : List String) (ntriggers : Int) (ncores : Nat) (memory_limit : Rat)
    (hnc : ncores > 1) (hnt : ntriggers > -1) :
    process_dispatch series_list ntriggers ncores memory_limit
      = .error .valueErrorMulticore := by
  unfold process_dispatch
  rw [if_pos ⟨hnc, hnt⟩]

/-- C2 witness: concrete rejected dispatch with two cores and `ntriggers = 0`. -/
theorem C2_multicore_ntriggers_rejected_witness :
    process_dispatch ["s1", "s2"] 0 2 100 = .error .valueErrorMulticore :=
  C2_multicore_ntriggers_rejected ["s1", "s2"] 0 2 100 (by decide) (by decide)

/-! ## Claim C10: memory limit divided by the core count under multi-worker dispatch -/

/-- C10: under multi-worker dispatch the caller-supplied `memory_limit` is
divided by `ncores` before being handed to the workers, while a single-core
run passes it unchanged, so the per-partition flush threshold differs
between the two for the same `memory_limit`. -/
theorem C10_memory_limit_divided
    (series_list : List String) (ntriggers : Int) (ncores : Nat) (memory_limit : Rat)
    (hnc : 1 < ncores) (hle : ncores ≤ series_list.length)
    (hnt : ntriggers ≤ -1) (hml : 0 < memory_limit) :
    process_dispatch series_list ntriggers ncores memory_limit
      = .ok (split_series series_list ncores, memory_limit / (ncores : Rat)) ∧
    process_dispatch series_list ntriggers 1 memory_limit
      = .ok ([series_list], memory_limit) ∧
    memory_limit / (ncores : Rat) ≠ memory_limit := by
  refine ⟨?_, ?_, ?_⟩
  · have h1 : ¬(ncores > 1 ∧ ntriggers > -1) := by rintro ⟨_, h⟩; omega
    have h2 : ¬(ncores > series_list.length) := by omega
    have h3 : ncores ≠ 1 := by omega
    simp [process_dispatch, h1, h2, h3]
  · have h1 : ¬((1 : Nat) > 1 ∧ ntriggers > -1) := by rintro ⟨h, _⟩; omega
    have h2 : ¬((1 : Nat) > series_list.length) := by omega
    simp [process_dispatch, h1, h2]
  · exact ne_of_lt (div_lt_self hml (by exact_mod_cast hnc))

/-- C10 witness: two cores over two series halve a 100-byte limit. -/
theorem C10_memory_limit_divided_witness :
    process_dispatch ["s1", "s2"] (-1) 2 100 = .ok (split_series ["s1", "s2"] 2, 100 / (2 : Rat)) :=
  (C10_memory_limit_divided ["s1", "s2"] (-1) 2 100 (by decide) (by decide)
    (by decide) (by norm_num)).1

/-! ## Claim C5: supplying both coincidence-window variants is an error -/

/-- C5: a configuration section that contains both `coincident_window_msec`
and `coincident_window_samples` makes `utils.read_config` raise
`ValueError`, while a duplicate-free section containing at most one of the
two is accepted. -/
theorem C5_both_windows_rejected (keys : List String)
    (h1 : "coincident_window_msec" ∈ keys) (h2 : "coincident_window_samples" ∈ keys) :
    (∃ e, coincident_window_check keys = .error e) ∧
    (∀ keys2 : List String, keys2.Nodup →
      ¬("coincident_window_msec" ∈ keys2 ∧ "coincident_window_samples" ∈ keys2) →
      coincident_window_check keys2 = .ok keys2) := by
  constructor
  · unfold coincident_window_check
    cases hb : build_parameter_list keys [] with
    | error e => exact ⟨e, rfl⟩
    | ok pl =>
      have hpl := build_parameter_list_ok keys [] pl hb
      simp only [List.nil_append] at hpl
      subst hpl
      refine ⟨.valueErrorBothWindows, ?_⟩
      simp only []
      rw [if_pos ⟨h1, h2⟩]
  · intro keys2 hnd hnot
    have hb := build_parameter_list_nodup keys2 [] (by simpa using hnd)
    simp only [List.nil_append] at hb
    simp [coincident_window_check, hb, hnot]

/-- C5 witness: the check fires on a section that has both window keys, and
accepts a section with only the msec variant. -/
theorem C5_both_windows_rejected_witness :
    ∃ e, coincident_window_check ["coincident_window_msec", "coincident_window_samples"]
      = .error e :=
  (C5_both_windows_rejected ["coincident_window_msec", "coincident_window_samples"]
    (by simp) (by simp)).1

/-! ## Claim C9: the counter counts triggers (result rows), not events -/

/-- C9: after a block is processed, the running counter grows by
`len(event_df)`, which is the total number of triggers over the built
events of the block (spec-modelled `get_event_df` returns one row per
trigger), and a block with zero triggers leaves the state unchanged. -/
theorem C9_counter_counts_triggers (b : Block) (st : WorkerState) :
    (process_block b st).trigger_counter = st.trigger_counter + event_df_rows b ∧
    (event_df_rows b = 0 → process_block b st = st) := by
  unfold process_block
  by_cases h : event_df_rows b = 0
  · simp [h]
  · simp [h]

/-- C9 witness: a block whose events contain no triggers leaves the worker
state untouched. -/
theorem C9_counter_counts_triggers_witness :
    process_block [] ⟨0, none, none, []⟩ = ⟨0, none, none, []⟩ :=
  (C9_counter_counts_triggers [] ⟨0, none, none, []⟩).2 (by decide)

/-! ## Claim C3: a zero-trigger series crashes instead of completing -/

/-- C3 (code bug): a series in which no block yields any trigger leaves
`series_df = None`, and the end-of-series flush then calls
`None.export_hdf5` (with `lgc_save`) or `None.copy()` (with `lgc_output`),
raising `AttributeError` instead of completing with an empty result as the
spec requires.  Only a run with both flags off completes. -/
theorem C3_zero_trigger_series_crashes :
    process_run ⟨-1, true, false, 2000000000, 10, [("chan1", some 5)]⟩ [⟨[[]], false⟩]
      = .error .attributeErrorNone ∧
    process_run ⟨-1, false, true, 2000000000, 10, [("chan1", some 5)]⟩ [⟨[[]], false⟩]
      = .error .attributeErrorNone ∧
    process_run ⟨-1, false, false, 2000000000, 10, [("chan1", some 5)]⟩ [⟨[[]], false⟩]
      = .ok ⟨none, [], none⟩ :=
  ⟨by decide, by decide, by decide⟩

/-! ## Claim C6: a mid-run read failure does not discard the partition -/

/-- C6 counterexample: a series whose stream ends with a read failure
(`read_error = true`) after one block with 2 triggers.  The claim says the
unflushed partition is discarded and the worker fails; instead the run
completes without error and the partition is exported as a dump of 2 rows. -/
theorem C6_counterexample :
    process_run ⟨-1, true, false, 100, 1, [("chanA", some 5)]⟩ [⟨[[2]], true⟩]
      = .ok ⟨none, [2], none⟩ ∧ ([2] : List Nat) ≠ [] :=
  ⟨by decide, by decide⟩

/-- C6 (amended): `read_next_event` reports a mid-run read failure the same
way as a normal end of series (it returns `False`), so the worker treats
the two identically — the run result never depends on the `read_error`
flag — and at the end of the stream the accumulated partition is flushed
(exported as a dump), not discarded, with no error surfaced. -/
theorem C6_read_failure_flushed_not_discarded
    (cfg : Cfg) (sl : List Series) (st st2 : WorkerState) (r : Nat)
    (hsave : cfg.lgc_save = true) (hout : cfg.lgc_output = false)
    (hsdf : st2.series_df = some r)
    (hnt : ntriggers_limit_reached cfg.ntriggers st2.trigger_counter = false)
    (hmem : memory_limit_reached cfg st2 = false) :
    run_series_list cfg (sl.map (fun s => ⟨s.blocks, false⟩)) st
      = run_series_list cfg sl st ∧
    run_blocks cfg [] st2
      = .ok (.brk { st2 with series_df := none, dumps := st2.dumps ++ [r] }) := by
  constructor
  · induction sl generalizing st with
    | nil => rfl
    | cons s rest ih =>
      simp only [List.map_cons, run_series_list]
      cases run_blocks cfg s.blocks { st with series_df := none } with
      | error e => rfl
      | ok o =>
        cases o with
        | ret res => rfl
        | brk st3 => exact ih st3
  · simp only [run_blocks, hnt, hmem]
    simp [stepFlush, hnt, hsave, hout, hsdf]

/-- C6 witness: a worker with a 2-row partition at the end of the stream
exports it as a dump and hands the cleared state to the next series. -/
theorem C6_read_failure_flushed_not_discarded_witness :
    run_blocks ⟨-1, true, false, 100, 1, [("chanA", some 5)]⟩ [] ⟨2, none, some 2, []⟩
      = .ok (.brk ⟨2, none, none, [2]⟩) :=
  (C6_read_failure_flushed_not_discarded ⟨-1, true, false, 100, 1, [("chanA", some 5)]⟩
    [] ⟨0, none, none, []⟩ ⟨2, none, some 2, []⟩ 2 rfl rfl rfl (by decide) (by decide)).2

/-! ## Claim C4: missing threshold is found per block, not at setup -/

/-- C4 counterexample: a configuration whose only trigger channel has no
`threshold_sigma`.  The claim says setup fails before any block is
processed; instead `_read_config` accepts the configuration and the
`ValueError` is raised inside the processing loop when the first block is
handled. -/
theorem C4_counterexample :
    read_config [("chan1", ⟨true, none⟩)] ["chan1"] = .ok [("chan1", ⟨true, none⟩)] ∧
    process_run ⟨-1, true, false, 100, 1, [("chan1", none)]⟩ [⟨[[1]], false⟩]
      = .error .valueErrorThreshold :=
  ⟨by decide, by decide⟩

/-- C4 (amended): `_read_config` never inspects `threshold_sigma` — any
configuration whose channels exist and are not duplicated passes setup —
and a trigger channel without a threshold makes the worker raise
`ValueError` inside the processing loop when the first block of the run is
handled. -/
theorem C4_missing_threshold_raised_in_loop
    (td : List (String × TriggerChanCfg)) (avail : List String)
    (cfg : Cfg) (b : Block) (rest : List Block) (err : Bool) (sl : List Series)
    (hok : check_channels ((td.filter (fun p => p.2.run)).map Prod.fst) avail [] = .ok ())
    (hmiss : ∃ p ∈ cfg.trigger_config, p.2 = none) :
    read_config td avail = .ok (td.filter (fun p => p.2.run)) ∧
    process_run cfg (⟨b :: rest, err⟩ :: sl) = .error .valueErrorThreshold := by
  constructor
  · simp [read_config, hok]
  · have hthr := threshold_check_error_of_missing cfg.trigger_config hmiss
    simp [process_run, run_series_list, run_blocks, ntriggers_limit_reached_zero,
      memory_limit_reached, hthr]

/-- C4 witness: setup accepts a channel without threshold and the first
block of the run raises the threshold error. -/
theorem C4_missing_threshold_raised_in_loop_witness :
    read_config [("chan2", ⟨true, none⟩)] ["chan2"] = .ok [("chan2", ⟨true, none⟩)] ∧
    process_run ⟨-1, false, true, 50, 2, [("chan2", none)]⟩ [⟨[[3], [1]], false⟩]
      = .error .valueErrorThreshold :=
  C4_missing_threshold_raised_in_loop [("chan2", ⟨true, none⟩)] ["chan2"]
    ⟨-1, false, true, 50, 2, [("chan2", none)]⟩ [3] [[1]] false []
    (by decide) (by decide)

/-! ## Claims C1 and C8: counterexamples from the in-memory output path -/

/-- C1 counterexample: `ntriggers = 5` with `lgc_output` and a small memory
limit over a stream of 6 triggers.  The claim says exactly 5 rows are
delivered; instead the run stops at the memory limit having delivered only
3 rows in the returned dataframe. -/
theorem C1_counterexample :
    process_run ⟨5, false, true, 8, 1, [("chanA", some 1)]⟩ [⟨[[3], [3]], false⟩]
      = .ok ⟨some 3, [], some .memoryLimit⟩ ∧
    5 < total_rows [⟨[[3], [3]], false⟩] ∧ (3 : Nat) ≠ 5 :=
  ⟨by decide, by decide, by decide⟩

/-- C8 counterexample: with `lgc_output` and `memory_limit = 8` bytes the
estimate of a 1-row, 1-column partition (8 bytes) reaches the limit while
two more blocks remain; the claim says processing continues with a fresh
partition, but the run returns immediately with only the first row. -/
theorem C8_counterexample :
    process_run ⟨-1, false, true, 8, 1, [("chanA", some 1)]⟩ [⟨[[1], [1], [1]], false⟩]
      = .ok ⟨some 1, [], some .memoryLimit⟩ ∧
    total_rows [⟨[[1], [1], [1]], false⟩] = 3 :=
  ⟨by decide, by decide⟩

/-! ## Claim C7: the series split is a near-equal contiguous partition -/

lemma sum_replicate_nat (n x : Nat) : (List.replicate n x).sum = n * x := by
  induction n with
  | zero => simp
  | succ k ih => simp [List.replicate_succ, ih, Nat.succ_mul]; ring

lemma split_sizes_sum (L n : Nat) (hn : 0 < n) : (split_sizes L n).sum = L := by
  unfold split_sizes
  rw [List.sum_append, sum_replicate_nat, sum_replicate_nat]
  have hmod : L % n < n := Nat.mod_lt _ hn
  have hdm := Nat.div_add_mod L n
  have hle : L % n * (L / n) ≤ n * (L / n) :=
    Nat.mul_le_mul_right _ (le_of_lt hmod)
  have e1 : L % n * (L / n + 1) = L % n * (L / n) + L % n := by ring
  have e2 : (n - L % n) * (L / n) = n * (L / n) - L % n * (L / n) :=
    Nat.sub_mul n (L % n) (L / n)
  omega

lemma split_sizes_length (L n : Nat) (hn : 0 < n) : (split_sizes L n).length = n := by
  unfold split_sizes
  have hmod : L % n < n := Nat.mod_lt _ hn
  simp
  omega

lemma mem_split_sizes {L n s : Nat} (h : s ∈ split_sizes L n) :
    s = L / n ∨ s = L / n + 1 := by
  unfold split_sizes at h
  rcases List.mem_append.1 h with h | h
  · right; exact List.eq_of_mem_replicate h
  · left; exact List.eq_of_mem_replicate h

lemma split_by_sizes_join {α : Type} (sizes : List Nat) :
    ∀ xs : List α, (split_by_sizes xs sizes).flatten = xs.take sizes.sum := by
  induction sizes with
  | nil => intro xs; simp [split_by_sizes]
  | cons s rest ih =>
    intro xs
    simp only [split_by_sizes, List.flatten_cons, List.sum_cons, ih, List.take_add]

lemma split_by_sizes_lengths {α : Type} (sizes : List Nat) :
    ∀ xs : List α, sizes.sum ≤ xs.length →
      (split_by_sizes xs sizes).map List.length = sizes := by
  induction sizes with
  | nil => intro xs _; simp [split_by_sizes]
  | cons s rest ih =>
    intro xs h
    simp only [List.sum_cons] at h
    simp only [split_by_sizes, List.map_cons]
    have h1 : (List.take s xs).length = s := by
      rw [List.length_take]
      omega
    rw [h1, ih (List.drop s xs) (by rw [List.length_drop]; omega)]

lemma filter_nonempty_join {α : Type} (L : List (List α)) :
    (L.filter (fun l => !l.isEmpty)).flatten = L.flatten := by
  induction L with
  | nil => rfl
  | cons x rest ih =>
    cases x with
    | nil => simpa [List.filter_cons] using ih
    | cons y ys => simp [List.filter_cons, ih]

lemma length_le_join_length {α : Type} (L : List (List α))
    (h : ∀ l ∈ L, l ≠ []) : L.length ≤ L.flatten.length := by
  induction L with
  | nil => simp
  | cons x rest ih =>
    have hx : x ≠ [] := h x (by simp)
    have hlen : 1 ≤ x.length := by
      cases x
      · exact absurd rfl hx
      · simp
    have hrest : rest.length ≤ rest.flatten.length :=
      ih (fun l hl => h l (by simp [hl]))
    simp only [List.length_cons, List.flatten_cons, List.length_append]
    omega

lemma split_series_chunk_length {α : Type} (xs : List α) (n : Nat)
    {l : List α} (hl : l ∈ split_series xs n) :
    l.length = xs.length / n ∨ l.length = xs.length / n + 1 := by
  have hmem : l ∈ array_split xs n := List.mem_of_mem_filter hl
  have hlens : (array_split xs n).map List.length = split_sizes xs.length n := by
    unfold array_split
    apply split_by_sizes_lengths
    rcases Nat.eq_zero_or_pos n with hn | hn
    · subst hn
      simp [split_sizes, sum_replicate_nat]
    · exact (split_sizes_sum _ _ hn).le
  have : l.length ∈ split_sizes xs.length n := by
    rw [← hlens]
    exact List.mem_map_of_mem List.length hmem
  exact mem_split_sizes this

/-- C7: for every series list and every `ncores ≥ 1`, `_split_series`
returns contiguous order-preserving chunks whose concatenation is the full
list (hence pairwise disjoint when the series are distinct), with any two
chunk lengths differing by at most one, no empty chunk, and at most
`min ncores (number of series)` chunks. -/
theorem C7_split_series_partition (xs : List String) (n : Nat) (hn : 0 < n) :
    (split_series xs n).flatten = xs ∧
    (∀ a ∈ split_series xs n, ∀ b ∈ split_series xs n, a.length ≤ b.length + 1) ∧
    (∀ l ∈ split_series xs n, l ≠ []) ∧
    (split_series xs n).length ≤ n ∧
    (split_series xs n).length ≤ xs.length ∧
    (xs.Nodup → (split_series xs n).Pairwise List.Disjoint) := by
  have hjoin : (split_series xs n).flatten = xs := by
    unfold split_series array_split
    rw [filter_nonempty_join, split_by_sizes_join, split_sizes_sum _ _ hn,
      List.take_length]
  have hne : ∀ l ∈ split_series xs n, l ≠ [] := by
    intro l hl
    have := List.of_mem_filter hl
    cases l
    · simp at this
    · simp
  refine ⟨hjoin, ?_, hne, ?_, ?_, ?_⟩
  · intro a ha b hb
    rcases split_series_chunk_length xs n ha with h1 | h1 <;>
      rcases split_series_chunk_length xs n hb with h2 | h2 <;> omega
  · calc (split_series xs n).length
        ≤ (array_split xs n).length := List.length_filter_le _ _
      _ = ((array_split xs n).map List.length).length := by rw [List.length_map]
      _ = (split_sizes xs.length n).length := by
          unfold array_split
          rw [split_by_sizes_lengths _ _ (split_sizes_sum _ _ hn).le]
      _ = n := split_sizes_length _ _ hn
  · calc (split_series xs n).length
        ≤ (split_series xs n).flatten.length := length_le_join_length _ hne
      _ = xs.length := by rw [hjoin]
  · intro hnd
    have : (split_series xs n).flatten.Nodup := by rw [hjoin]; exact hnd
    exact (List.nodup_flatten.1 this).2

/-- C7 witness: three series split over two cores concatenate back to the
full list. -/
theorem C7_split_series_partition_witness :
    (split_series ["s1", "s2", "s3"] 2).flatten = ["s1", "s2", "s3"] :=
  (C7_split_series_partition ["s1", "s2", "s3"] 2 (by decide)).1

/-! ## Invariant machinery for the streaming loop (claims C1 and C8) -/

lemma process_block_counter (b : Block) (st : WorkerState) :
    (process_block b st).trigger_counter = st.trigger_counter + event_df_rows b := by
  unfold process_block
  by_cases h : event_df_rows b = 0
  · simp [h]
  · simp [h]

lemma blocks_rows_cons (b : Block) (rest : List Block) :
    blocks_rows (b :: rest) = event_df_rows b + blocks_rows rest := by
  simp [blocks_rows, event_df_rows]

lemma total_rows_cons (s : Series) (rest : List Series) :
    total_rows (s :: rest) = blocks_rows s.blocks + total_rows rest := by
  simp [total_rows]

lemma Jmid_process_block (cfg : Cfg) (M : Nat) (b : Block) (st : WorkerState)
    (hJ : Jmid cfg M st) : Jmid cfg M (process_block b st) := by
  obtain ⟨h1, h2, h3⟩ := hJ
  unfold Jmid sdf0 out0 at *
  unfold process_block
  by_cases h : event_df_rows b = 0
  · simp only [h, if_true, ite_true]
    exact ⟨h1, h2, h3⟩
  · simp only [h, if_false, ite_false]
    simp only [Option.getD_some]
    refine ⟨?_, ?_, ?_⟩
    · intro hs
      have := h1 hs
      omega
    · intro hs
      have := h2 hs
      omega
    · omega

lemma stepFlush_cases (cfg : Cfg) (M : Nat) (st : WorkerState) (memR : Bool)
    (hM : cfg.ntriggers = (M : Int)) (hMpos : 0 < M) (hJ : Jmid cfg M st) :
    (∃ e, stepFlush cfg st (ntriggers_limit_reached cfg.ntriggers st.trigger_counter) memR
        = .error e) ∨
    (∃ res, stepFlush cfg st (ntriggers_limit_reached cfg.ntriggers st.trigger_counter) memR
        = .ok (.ret res) ∧
      (res.stop_reason = some .memoryLimit ∨
        (res.stop_reason = some .countReached ∧
          (cfg.lgc_save = true → res.dumps.sum = M) ∧
          (cfg.lgc_output = true → res.output_df.getD 0 = M)))) ∨
    (ntriggers_limit_reached cfg.ntriggers st.trigger_counter = false ∧
      (cfg.lgc_output && memR) = false ∧ st.trigger_counter < M ∧
      ∃ st3, stepFlush cfg st (ntriggers_limit_reached cfg.ntriggers st.trigger_counter) memR
          = .ok (.cont st3) ∧
        st3.trigger_counter = st.trigger_counter ∧
        (cfg.lgc_save = true → st3.dumps.sum = st.trigger_counter ∧ st3.series_df = none) ∧
        (cfg.lgc_output = true → out0 st3 = st.trigger_counter) ∧
        (cfg.lgc_save = false ∧ cfg.lgc_output = false → st3 = st)) := by
  obtain ⟨hA, hB, hE⟩ := hJ
  rw [hM]
  cases hnt : ntriggers_limit_reached (M : Int) st.trigger_counter with
  | true =>
    have hge : M ≤ st.trigger_counter :=
      (ntriggers_limit_reached_true_iff M _ hMpos).1 hnt
    cases hs : st.series_df with
    | none =>
      exfalso
      unfold sdf0 at hE
      rw [hs] at hE
      simp at hE
      omega
    | some r =>
      unfold sdf0 at hE
      rw [hs] at hE
      simp at hE
      have hnk : (0 : Int) < (r : Int) - ((st.trigger_counter : Int) - (M : Int)) := by
        omega
      have hk : ((r : Int) - ((st.trigger_counter : Int) - (M : Int))).toNat
          = M + r - st.trigger_counter := by
        omega
      have hcond : (st.trigger_counter : Int) - (M : Int) < (r : Int) := by omega
      right; left
      cases ho : cfg.lgc_output with
      | true =>
        cases hout : st.output_df with
        | none =>
          cases hsv : cfg.lgc_save with
          | true =>
            refine ⟨⟨some (M + r - st.trigger_counter),
              st.dumps ++ [M + r - st.trigger_counter], some .countReached⟩, ?_, ?_⟩
            · simp [stepFlush, hM, hs, hcond, hk, ho, hout, hsv, hnt]
            · right
              refine ⟨rfl, ?_, ?_⟩
              · intro _
                have := hA hsv
                unfold sdf0 at this
                rw [hs] at this
                simp at this
                simp
                omega
              · intro _
                have := hB ho
                unfold sdf0 out0 at this
                rw [hs, hout] at this
                simp at this
                simp
                omega
          | false =>
            refine ⟨⟨some (M + r - st.trigger_counter), st.dumps, some .countReached⟩, ?_, ?_⟩
            · simp [stepFlush, hM, hs, hcond, hk, ho, hout, hsv, hnt]
            · right
              refine ⟨rfl, ?_, ?_⟩
              · intro hcon
                exact Bool.noConfusion hcon
              · intro _
                have := hB ho
                unfold sdf0 out0 at this
                rw [hs, hout] at this
                simp at this
                simp
                omega
        | some o =>
          cases hsv : cfg.lgc_save with
          | true =>
            refine ⟨⟨some (o + (M + r - st.trigger_counter)),
              st.dumps ++ [M + r - st.trigger_counter], some .countReached⟩, ?_, ?_⟩
            · simp [stepFlush, hM, hs, hcond, hk, ho, hout, hsv, hnt]
            · right
              refine ⟨rfl, ?_, ?_⟩
              · intro _
                have := hA hsv
                unfold sdf0 at this
                rw [hs] at this
                simp at this
                simp
                omega
              · intro _
                have := hB ho
                unfold sdf0 out0 at this
                rw [hs, hout] at this
                simp at this
                simp
                omega
          | false =>
            refine ⟨⟨some (o + (M + r - st.trigger_counter)), st.dumps, some .countReached⟩,
              ?_, ?_⟩
            · simp [stepFlush, hM, hs, hcond, hk, ho, hout, hsv, hnt]
            · right
              refine ⟨rfl, ?_, ?_⟩
              · intro hcon
                exact Bool.noConfusion hcon
              · intro _
                have := hB ho
                unfold sdf0 out0 at this
                rw [hs, hout] at this
                simp at this
                simp
                omega
      | false =>
        cases hsv : cfg.lgc_save with
        | true =>
          refine ⟨⟨st.output_df, st.dumps ++ [M + r - st.trigger_counter],
            some .countReached⟩, ?_, ?_⟩
          · simp [stepFlush, hM, hs, hcond, hk, ho, hsv, hnt]
          · right
            refine ⟨rfl, ?_, ?_⟩
            · intro _
              have := hA hsv
              unfold sdf0 at this
              rw [hs] at this
              simp at this
              simp
              omega
            · exact fun hcon => Bool.noConfusion hcon
        | false =>
          refine ⟨⟨st.output_df, st.dumps, some .countReached⟩, ?_, ?_⟩
          · simp [stepFlush, hM, hs, hcond, hk, ho, hsv, hnt]
          · right
            refine ⟨rfl, ?_, ?_⟩
            · exact fun hcon => Bool.noConfusion hcon
            · exact fun hcon => Bool.noConfusion hcon
  | false =>
    have hlt : st.trigger_counter < M :=
      (ntriggers_limit_reached_false_iff M _ hMpos).1 hnt
    cases ho : cfg.lgc_output with
    | true =>
      cases hs : st.series_df with
      | none =>
        left
        exact ⟨.attributeErrorNone, by simp [stepFlush, hs, ho]⟩
      | some r =>
        cases hmr : memR with
        | true =>
          right; left
          cases hout : st.output_df with
          | none =>
            cases hsv : cfg.lgc_save with
            | true =>
              exact ⟨⟨some r, st.dumps ++ [r], some .memoryLimit⟩,
                by simp [stepFlush, hs, ho, hout, hsv], Or.inl rfl⟩
            | false =>
              exact ⟨⟨some r, st.dumps, some .memoryLimit⟩,
                by simp [stepFlush, hs, ho, hout, hsv], Or.inl rfl⟩
          | some o =>
            cases hsv : cfg.lgc_save with
            | true =>
              exact ⟨⟨some (o + r), st.dumps ++ [r], some .memoryLimit⟩,
                by simp [stepFlush, hs, ho, hout, hsv], Or.inl rfl⟩
            | false =>
              exact ⟨⟨some (o + r), st.dumps, some .memoryLimit⟩,
                by simp [stepFlush, hs, ho, hout, hsv], Or.inl rfl⟩
        | false =>
          right; right
          refine ⟨rfl, by simp [ho], hlt, ?_⟩
          cases hout : st.output_df with
          | none =>
            cases hsv : cfg.lgc_save with
            | true =>
              refine ⟨⟨st.trigger_counter, some r, none, st.dumps ++ [r]⟩, ?_, rfl, ?_, ?_, ?_⟩
              · simp [stepFlush, hs, ho, hout, hsv]
              · intro _
                constructor
                · have := hA hsv
                  unfold sdf0 at this
                  rw [hs] at this
                  simp at this
                  simp
                  omega
                · rfl
              · intro _
                have := hB ho
                unfold sdf0 out0 at this
                rw [hs, hout] at this
                simp at this
                simp [out0]
                omega
              · rintro ⟨_, hcon⟩
                exact Bool.noConfusion hcon
            | false =>
              refine ⟨⟨st.trigger_counter, some r, some r, st.dumps⟩, ?_, rfl, ?_, ?_, ?_⟩
              · simp [stepFlush, hs, ho, hout, hsv]
              · intro hcon
                exact Bool.noConfusion hcon
              · intro _
                have := hB ho
                unfold sdf0 out0 at this
                rw [hs, hout] at this
                simp at this
                simp [out0]
                omega
              · rintro ⟨_, hcon⟩
                exact Bool.noConfusion hcon
          | some o =>
            cases hsv : cfg.lgc_save with
            | true =>
              refine ⟨⟨st.trigger_counter, some (o + r), none, st.dumps ++ [r]⟩,
                ?_, rfl, ?_, ?_, ?_⟩
              · simp [stepFlush, hs, ho, hout, hsv]
              · intro _
                constructor
                · have := hA hsv
                  unfold sdf0 at this
                  rw [hs] at this
                  simp at this
                  simp
                  omega
                · rfl
              · intro _
                have := hB ho
                unfold sdf0 out0 at this
                rw [hs, hout] at this
                simp at this
                simp [out0]
                omega
              · rintro ⟨_, hcon⟩
                exact Bool.noConfusion hcon
            | false =>
              refine ⟨⟨st.trigger_counter, some (o + r), some r, st.dumps⟩, ?_, rfl, ?_, ?_, ?_⟩
              · simp [stepFlush, hs, ho, hout, hsv]
              · intro hcon
                exact Bool.noConfusion hcon
              · intro _
                have := hB ho
                unfold sdf0 out0 at this
                rw [hs, hout] at this
                simp at this
                simp [out0]
                omega
              · rintro ⟨_, hcon⟩
                exact Bool.noConfusion hcon
    | false =>
      cases hsv : cfg.lgc_save with
      | true =>
        cases hs : st.series_df with
        | none =>
          left
          exact ⟨.attributeErrorNone, by simp [stepFlush, hs, ho, hsv]⟩
        | some r =>
          right; right
          refine ⟨rfl, by simp [ho], hlt,
            ⟨st.trigger_counter, st.output_df, none, st.dumps ++ [r]⟩, ?_, rfl, ?_, ?_, ?_⟩
          · simp [stepFlush, hs, ho, hsv]
          · intro _
            constructor
            · have := hA hsv
              unfold sdf0 at this
              rw [hs] at this
              simp at this
              simp
              omega
            · rfl
          · intro hcon
            exact Bool.noConfusion hcon
          · rintro ⟨hcon, _⟩
            exact Bool.noConfusion hcon
      | false =>
        right; right
        refine ⟨rfl, by simp [ho], hlt, st, ?_, rfl, ?_, ?_, fun _ => rfl⟩
        · simp [stepFlush, ho, hsv]
        · intro hcon
          exact Bool.noConfusion hcon
        · intro hcon
          exact Bool.noConfusion hcon

lemma run_blocks_cases (cfg : Cfg) (M : Nat)
    (hM : cfg.ntriggers = (M : Int)) (hMpos : 0 < M) :
    ∀ (blocks : List Block) (st : WorkerState), Jmid cfg M st →
    (∃ e, run_blocks cfg blocks st = .error e) ∨
    (∃ res, run_blocks cfg blocks st = .ok (.ret res) ∧
      (res.stop_reason = some .memoryLimit ∨
        (res.stop_reason = some .countReached ∧
          (cfg.lgc_save = true → res.dumps.sum = M) ∧
          (cfg.lgc_output = true → res.output_df.getD 0 = M)))) ∨
    (∃ st2, run_blocks cfg blocks st = .ok (.brk st2) ∧
      st2.trigger_counter = st.trigger_counter + blocks_rows blocks ∧
      st2.trigger_counter < M ∧
      (cfg.lgc_save = true → st2.dumps.sum = st2.trigger_counter) ∧
      (cfg.lgc_output = true → out0 st2 = st2.trigger_counter)) := by
  intro blocks
  induction blocks with
  | nil =>
    intro st hJ
    rcases stepFlush_cases cfg M st (memory_limit_reached cfg st) hM hMpos hJ with
      ⟨e, heq⟩ | ⟨res, heq, hres⟩ | ⟨hnt, houtmem, hlt, st3, heq, hcnt, hsaveF, houtF, hunch⟩
    · left
      exact ⟨e, by simp [run_blocks, heq]⟩
    · right; left
      exact ⟨res, by simp [run_blocks, heq], hres⟩
    · right; right
      refine ⟨st3, by simp [run_blocks, heq], ?_, ?_, ?_, ?_⟩
      · simp [blocks_rows, hcnt]
      · rw [hcnt]; exact hlt
      · intro h; rw [hcnt]; exact (hsaveF h).1
      · intro h; rw [hcnt]; exact houtF h
  | cons b rest ih =>
    intro st hJ
    cases hfl : (ntriggers_limit_reached cfg.ntriggers st.trigger_counter
        || memory_limit_reached cfg st) with
    | false =>
      cases hthr : threshold_check cfg.trigger_config with
      | error e =>
        left
        exact ⟨e, by simp [run_blocks, hfl, hthr]⟩
      | ok u =>
        rcases ih (process_block b st) (Jmid_process_block cfg M b st hJ) with
          ⟨e, heq2⟩ | ⟨res, heq2, hres⟩ | ⟨st2, heq2, hcnt2, hlt2, hs2, ho2⟩
        · left
          exact ⟨e, by simp [run_blocks, hfl, hthr, heq2]⟩
        · right; left
          exact ⟨res, by simp [run_blocks, hfl, hthr, heq2], hres⟩
        · right; right
          refine ⟨st2, by simp [run_blocks, hfl, hthr, heq2], ?_, hlt2, hs2, ho2⟩
          rw [hcnt2, process_block_counter, blocks_rows_cons]
          omega
    | true =>
      rcases stepFlush_cases cfg M st (memory_limit_reached cfg st) hM hMpos hJ with
        ⟨e, heq⟩ | ⟨res, heq, hres⟩ | ⟨hnt, houtmem, hlt, st3, heq, hcnt, hsaveF, houtF, hunch⟩
      · left
        exact ⟨e, by simp [run_blocks, hfl, heq]⟩
      · right; left
        exact ⟨res, by simp [run_blocks, hfl, heq], hres⟩
      · have hmemR : memory_limit_reached cfg st = true := by
          rcases Bool.or_eq_true_iff.mp hfl with h | h
          · rw [hnt] at h
            exact Bool.noConfusion h
          · exact h
        have hJ3 : Jmid cfg M st3 := by
          cases hsv : cfg.lgc_save with
          | true =>
            obtain ⟨hsum, hnone⟩ := hsaveF hsv
            refine ⟨?_, ?_, ?_⟩
            · intro _
              rw [hcnt, hsum]
              simp [sdf0, hnone]
            · intro hop
              have := houtF hop
              rw [hcnt]
              simp [sdf0, hnone, this]
            · rw [hcnt]
              simp [sdf0, hnone]
              omega
          | false =>
            cases hop : cfg.lgc_output with
            | true =>
              exfalso
              rw [hop, hmemR] at houtmem
              exact Bool.noConfusion houtmem
            | false =>
              rw [hunch ⟨hsv, hop⟩]
              exact hJ
        cases hthr : threshold_check cfg.trigger_config with
        | error e =>
          left
          exact ⟨e, by simp [run_blocks, hfl, heq, hthr]⟩
        | ok u =>
          rcases ih (process_block b st3) (Jmid_process_block cfg M b st3 hJ3) with
            ⟨e, heq2⟩ | ⟨res, heq2, hres⟩ | ⟨st2, heq2, hcnt2, hlt2, hs2, ho2⟩
          · left
            exact ⟨e, by simp [run_blocks, hfl, heq, hthr, heq2]⟩
          · right; left
            exact ⟨res, by simp [run_blocks, hfl, heq, hthr, heq2], hres⟩
          · right; right
            refine ⟨st2, by simp [run_blocks, hfl, heq, hthr, heq2], ?_, hlt2, hs2, ho2⟩
            rw [hcnt2, process_block_counter, hcnt, blocks_rows_cons]
            omega

lemma Jbound_reset (cfg : Cfg) (M : Nat) (st : WorkerState)
    (h : Jbound cfg M st) : Jmid cfg M { st with series_df := none } := by
  obtain ⟨h1, h2, h3⟩ := h
  refine ⟨?_, ?_, ?_⟩
  · intro hs
    simp [sdf0, h2 hs]
  · intro hs
    have := h3 hs
    unfold out0 at this
    simp [sdf0, out0, this]
  · simp [sdf0]
    omega

lemma run_series_list_cases (cfg : Cfg) (M : Nat)
    (hM : cfg.ntriggers = (M : Int)) (hMpos : 0 < M) :
    ∀ (sl : List Series) (st : WorkerState), Jbound cfg M st →
    (∃ e, run_series_list cfg sl st = .error e) ∨
    (∃ res, run_series_list cfg sl st = .ok res ∧
      (res.stop_reason = some .memoryLimit ∨
        (res.stop_reason = some .countReached ∧
          (cfg.lgc_save = true → res.dumps.sum = M) ∧
          (cfg.lgc_output = true → res.output_df.getD 0 = M)))) ∨
    (∃ res, run_series_list cfg sl st = .ok res ∧ res.stop_reason = none ∧
      st.trigger_counter + total_rows sl < M) := by
  intro sl
  induction sl with
  | nil =>
    intro st hB
    right; right
    refine ⟨⟨st.output_df, st.dumps, none⟩, rfl, rfl, ?_⟩
    simp [total_rows]
    exact hB.1
  | cons s rest ih =>
    intro st hB
    rcases run_blocks_cases cfg M hM hMpos s.blocks { st with series_df := none }
        (Jbound_reset cfg M st hB) with
      ⟨e, heq⟩ | ⟨res, heq, hres⟩ | ⟨st2, heq, hcnt, hlt, hs2, ho2⟩
    · left
      exact ⟨e, by simp [run_series_list, heq]⟩
    · right; left
      exact ⟨res, by simp [run_series_list, heq], hres⟩
    · have hB2 : Jbound cfg M st2 := ⟨hlt, hs2, ho2⟩
      rcases ih st2 hB2 with ⟨e, heq2⟩ | ⟨res, heq2, hres⟩ | ⟨res, heq2, hnone, hlt2⟩
      · left
        exact ⟨e, by simp [run_series_list, heq, heq2]⟩
      · right; left
        exact ⟨res, by simp [run_series_list, heq, heq2], hres⟩
      · right; right
        refine ⟨res, by simp [run_series_list, heq, heq2], hnone, ?_⟩
        rw [total_rows_cons]
        simp at hcnt
        omega

/-! ## Claim C1 (amended): exact delivery under the event-count limit -/

/-- C1 (amended): with `ntriggers = M > 0` over a stream producing more
than `M` trigger rows, a run of `_process` that returns without raising and
is not stopped early by the in-memory-output memory limit ends with the
count-reached return, and the rows delivered are exactly `M`: the hdf5
dumps sum to `M` rows when `lgc_save`, and the returned dataframe holds
exactly `M` rows when `lgc_output` — boundary rows in excess of `M` are
dropped by the truncation, not duplicated. -/
theorem C1_hard_stop_exact_delivery (cfg : Cfg) (sl : List Series) (res : RunResult) (M : Nat)
    (hM : cfg.ntriggers = (M : Int)) (hMpos : 0 < M)
    (hrun : process_run cfg sl = .ok res)
    (hmem : res.stop_reason ≠ some .memoryLimit)
    (htot : M < total_rows sl) :
    res.stop_reason = some .countReached ∧
    (cfg.lgc_save = true → res.dumps.sum = M) ∧
    (cfg.lgc_output = true → res.output_df.getD 0 = M) := by
  have hB : Jbound cfg M ⟨0, none, none, []⟩ := by
    refine ⟨hMpos, ?_, ?_⟩
    · intro _; rfl
    · intro _; rfl
  unfold process_run at hrun
  rcases run_series_list_cases cfg M hM hMpos sl ⟨0, none, none, []⟩ hB with
    ⟨e, heq⟩ | ⟨res2, heq, hres⟩ | ⟨res2, heq, hnone, hlt⟩
  · rw [heq] at hrun
    exact Except.noConfusion hrun
  · rw [heq] at hrun
    injection hrun with h
    subst h
    rcases hres with h | ⟨h1, h2, h3⟩
    · exact absurd h hmem
    · exact ⟨h1, h2, h3⟩
  · rw [heq] at hrun
    injection hrun with h
    subst h
    exfalso
    simp at hlt
    omega

/-- C1 witness: `ntriggers = 1` in save mode over a stream of 2 trigger
rows delivers exactly one dump holding 1 row. -/
theorem C1_hard_stop_exact_delivery_witness :
    (some StopReason.countReached : Option StopReason) = some .countReached ∧
    ((Cfg.mk 1 true false 100000 10 [("chan1", some 5)]).lgc_save = true →
      (RunResult.mk none [1] (some .countReached)).dumps.sum = 1) ∧
    ((Cfg.mk 1 true false 100000 10 [("chan1", some 5)]).lgc_output = true →
      (RunResult.mk none [1] (some .countReached)).output_df.getD 0 = 1) :=
  C1_hard_stop_exact_delivery (Cfg.mk 1 true false 100000 10 [("chan1", some 5)])
    [⟨[[1], [1]], false⟩] (RunResult.mk none [1] (some .countReached)) 1
    rfl (by decide) (by decide) (by decide) (by decide)

/-! ## Claim C8 (amended): memory-limit flush and continuation -/

/-- C8 (amended): the partition memory estimate is
`row_count * column_count * 8` bytes, and in the file-saving mode
(`lgc_save`, `lgc_output = False`) a worker whose partition estimate has
reached the memory limit while more blocks remain exports the partition as
a dump and continues processing the remaining blocks with a fresh empty
partition (`series_df = None`, so the estimate restarts at zero).  The
in-memory-output mode instead returns early (see the counterexample). -/
theorem C8_memory_flush_continue (cfg : Cfg) (st : WorkerState) (b : Block)
    (rest : List Block) (r : Nat)
    (hsave : cfg.lgc_save = true) (hout : cfg.lgc_output = false)
    (hsdf : st.series_df = some r)
    (hmem : memory_limit_reached cfg st = true)
    (hnt : ntriggers_limit_reached cfg.ntriggers st.trigger_counter = false)
    (hthr : threshold_check cfg.trigger_config = .ok ()) :
    mem_usage r cfg.ncols = r * cfg.ncols * 8 ∧
    run_blocks cfg (b :: rest) st
      = run_blocks cfg rest
          (process_block b { st with series_df := none, dumps := st.dumps ++ [r] }) := by
  constructor
  · rfl
  · simp [run_blocks, hnt, hmem, stepFlush, hsave, hout, hsdf, hthr]

/-- C8 witness: a 2-row, 1-column partition (16 bytes) over an 8-byte limit
is flushed as a dump and the loop continues on the next block. -/
theorem C8_memory_flush_continue_witness :
    run_blocks ⟨-1, true, false, 8, 1, [("chanA", some 1)]⟩ [[1]] ⟨2, none, some 2, []⟩
      = run_blocks ⟨-1, true, false, 8, 1, [("chanA", some 1)]⟩ []
          (process_block [1] ⟨2, none, none, [2]⟩) :=
  (C8_memory_flush_continue ⟨-1, true, false, 8, 1, [("chanA", some 1)]⟩
    ⟨2, none, some 2, []⟩ [1] [] 2 rfl rfl rfl (by decide) (by decide) (by decide)).2
